import Mathlib

/-
Shallow embedding of the Meinrag retrieval core (app/vectorstore/faiss_store.py,
app/vectorstore/chroma_store.py, app/rag/chain.py, app/rag/memory.py,
app/db/repositories.py, app/routers/query.py, app/services/collection_suggester.py),
with theorems checking the natural-language specification against it.

The underlying nearest-neighbour index (the FAISS index / the Chroma engine,
external library code) is treated as an opaque oracle that returns chunks
drawn from the corpus it is given; everything the repository's own code does
around that oracle (tagging, filtering, truncation, trimming, expiry,
fallbacks) is modelled directly from the source.
-/

set_option maxRecDepth 8000

/-- A retrieval chunk: `page_content` plus the metadata fields the core reads
(`doc_id`, the `collection` tag used by the Chroma `where` filters, and the
remaining metadata as an association list). -/
structure Chunk where
  page_content : String
  doc_id : Option String
  collection : Option String
  extra : List (String × String)
deriving DecidableEq, Repr

/-- Python truthiness of an optional list value (`if doc_ids:`): `None` and
`[]` are both falsy. -/
def pyTruthyList (o : Option (List α)) : Bool :=
  match o with
  | none => false
  | some l => !l.isEmpty

/-- Python truthiness of an optional string value (`if request.collection:`):
`None` and the empty string are falsy. -/
def pyTruthyStr (o : Option String) : Bool :=
  match o with
  | none => false
  | some s => !(s == "")

/-- Python membership test `d.metadata.get("doc_id") in doc_ids`: a missing
key yields `None`, which is never equal to a string id in the list. -/
def docIdMem (o : Option String) (ids : List String) : Bool :=
  match o with
  | none => false
  | some s => ids.contains s

/-- Type of the opaque nearest-neighbour search of the backing index:
given the corpus actually held by the index, a query and a count, it
produces a ranked list of chunks. -/
def NNOracle : Type := List Chunk → String → Nat → List Chunk

/-- The one assumption made about a nearest-neighbour oracle: it only ever
returns chunks that are present in the corpus it searched. -/
def OracleSound (f : NNOracle) : Prop :=
  ∀ s q k, ∀ c ∈ f s q k, c ∈ s

/-- A trivially sound oracle (rank = insertion order), used to instantiate
the oracle-parametric theorems on concrete inputs. -/
def takeOracle : NNOracle := fun s _ k => s.take k

theorem takeOracle_sound : OracleSound takeOracle := by
  intro s q k c hc
  exact List.take_subset _ _ hc

/-- Unwrap a non-raising result (`.error` models a raised Python exception). -/
def okDocs (e : Except String (List Chunk)) : List Chunk :=
  match e with
  | .ok l => l
  | .error _ => []

namespace FAISSStoreManager

/-
`FAISSStoreManager` keeps `self._store : FAISS | None`; `None` both before any
documents are added and after the last document is deleted.  The docstore's
chunks are modelled as the list of `Chunk`s held by the index.
-/

/-- `add_documents`: tags every chunk with `doc_id`, then builds the store
from the batch (when `self._store is None`) or appends to it. -/
def add_documents (store : Option (List Chunk)) (documents : List Chunk)
    (doc_id : String) : Option (List Chunk) :=
  let documents := documents.map (fun d => { d with doc_id := some doc_id })
  match store with
  | none => some documents
  | some s => some (s ++ documents)

/-- The chunk-id list returned by `add_documents`. -/
def added_chunk_ids (documents : List Chunk) (doc_id : String) : List String :=
  (List.range documents.length).map (fun i => doc_id ++ "_chunk_" ++ toString i)

/-- `delete_document`: rebuilds the store from every chunk whose `doc_id`
metadata differs from the target (`if all_docs:` — a truthy, i.e. nonempty,
remainder is rebuilt; otherwise the store becomes `None`). -/
def delete_document (store : Option (List Chunk)) (doc_id : String) :
    Option (List Chunk) :=
  match store with
  | none => none
  | some s =>
    match s.filter (fun d => decide (d.doc_id ≠ some doc_id)) with
    | [] => none
    | a :: all_docs => some (a :: all_docs)

/-- `similarity_search`: empty result on an uninitialized/empty store,
otherwise the index's own search. -/
def similarity_search (f : NNOracle) (store : Option (List Chunk))
    (query : String) (k : Nat) : List Chunk :=
  match store with
  | none => []
  | some s => f s query k

/-- `as_retriever`: raises `ValueError` on an uninitialized/empty store,
otherwise wraps the underlying index (modelled by its corpus). -/
def as_retriever (store : Option (List Chunk)) : Except String (List Chunk) :=
  match store with
  | none => .error "FAISS store is empty. Upload documents first."
  | some s => .ok s

/-- `similarity_search_with_filter`: over-fetch `k * 5` candidates, post-filter
by `doc_ids` when that list is truthy (non-`None` and nonempty), truncate to `k`. -/
def similarity_search_with_filter (f : NNOracle) (store : Option (List Chunk))
    (query : String) (k : Nat) (doc_ids : Option (List String)) : List Chunk :=
  match store with
  | none => []
  | some s =>
    let candidates := f s query (k * 5)
    let candidates :=
      if pyTruthyList doc_ids then
        candidates.filter (fun d => docIdMem d.doc_id (doc_ids.getD []))
      else candidates
    candidates.take k

/-- `get_all_documents`: the docstore's chunks; empty when uninitialized. -/
def get_all_documents (store : Option (List Chunk)) : List Chunk :=
  match store with
  | none => []
  | some s => s

end FAISSStoreManager

namespace ChromaStoreManager

/-
`ChromaStoreManager` keeps `self._store : Chroma | None`; it is `None` until
`initialize` is called (every operation on it then raises `AttributeError`),
and after `initialize` it holds a (possibly empty) collection of chunks.
-/

/-- The `where` filters built by `similarity_search_with_filter`. -/
inductive Where
  | and_in_eq (ids : List String) (collection : String)
  | in_ids (ids : List String)
  | eq_collection (collection : String)
deriving DecidableEq, Repr

/-- Semantics of a Chroma `where` predicate on one chunk's metadata. -/
def whereMatches (w : Where) (c : Chunk) : Bool :=
  match w with
  | .and_in_eq ids coll => docIdMem c.doc_id ids && (c.collection == some coll)
  | .in_ids ids => docIdMem c.doc_id ids
  | .eq_collection coll => c.collection == some coll

/-- The `where` construction of `similarity_search_with_filter` (lines 42-49):
`$and` of both filters, `$in` on `doc_ids`, equality on `collection`, or no
filter — with Python truthiness on both arguments. -/
def buildWhere (doc_ids : Option (List String)) (collection : Option String) :
    Option Where :=
  if pyTruthyList doc_ids && pyTruthyStr collection then
    some (.and_in_eq (doc_ids.getD []) (collection.getD ""))
  else if pyTruthyList doc_ids then
    some (.in_ids (doc_ids.getD []))
  else if pyTruthyStr collection then
    some (.eq_collection (collection.getD ""))
  else
    none

/-- Chroma's native predicate push-down: the engine searches only the chunks
satisfying the `where` filter (no filter: the whole collection). -/
def engineSearch (f : NNOracle) (docs : List Chunk) (query : String) (k : Nat)
    (w : Option Where) : List Chunk :=
  match w with
  | none => f docs query k
  | some w => f (docs.filter (whereMatches w)) query k

/-- `similarity_search`: raises `AttributeError` before `initialize`. -/
def similarity_search (f : NNOracle) (store : Option (List Chunk))
    (query : String) (k : Nat) : Except String (List Chunk) :=
  match store with
  | none => .error "AttributeError"
  | some docs => .ok (f docs query k)

/-- `similarity_search_with_filter`: builds the `where` filter and runs the
engine's filtered search. -/
def similarity_search_with_filter (f : NNOracle) (store : Option (List Chunk))
    (query : String) (k : Nat) (doc_ids : Option (List String))
    (collection : Option String) : Except String (List Chunk) :=
  match store with
  | none => .error "AttributeError"
  | some docs => .ok (engineSearch f docs query k (buildWhere doc_ids collection))

/-- `add_documents`: tags every chunk with `doc_id` and inserts the batch. -/
def add_documents (store : Option (List Chunk)) (documents : List Chunk)
    (doc_id : String) : Except String (List Chunk) :=
  match store with
  | none => .error "AttributeError"
  | some docs =>
    .ok (docs ++ documents.map (fun d => { d with doc_id := some doc_id }))

/-- `delete_document`: fetch the ids whose metadata `doc_id` equals the target
and delete exactly those (no-op when none match). -/
def delete_document (store : Option (List Chunk)) (doc_id : String) :
    Except String (List Chunk) :=
  match store with
  | none => .error "AttributeError"
  | some docs => .ok (docs.filter (fun d => decide (d.doc_id ≠ some doc_id)))

/-- `get_all_documents`: dump of the collection's chunks. -/
def get_all_documents (store : Option (List Chunk)) : Except String (List Chunk) :=
  match store with
  | none => .error "AttributeError"
  | some docs => .ok docs

end ChromaStoreManager

/-- Concrete chunk used by the counterexamples below. -/
def chunkD1 : Chunk := { page_content := "alpha", doc_id := some "d1", collection := none, extra := [] }

/-- C1: counterexample — with an explicitly supplied EMPTY `doc_ids` list the
claim requires an empty result, but Python `if doc_ids:` is false for `[]`,
so the FAISS backend applies no filter at all and returns the unfiltered
candidates (here one chunk tagged `d1`), not the empty list. -/
theorem C1_counterexample :
    FAISSStoreManager.similarity_search_with_filter takeOracle (some [chunkD1])
      "q" 1 (some []) ≠ [] := by
  decide

/-- C1 (amended): for a NONEMPTY supplied `doc_ids` set, every chunk returned
by `similarity_search_with_filter` (either backend) has `doc_id` in the set,
and when no stored chunk's `doc_id` is in the set the result is empty; an
empty supplied set, however, is falsy in Python and is treated as "no filter",
so the call behaves exactly like the unfiltered search instead of returning
the empty list. -/
theorem C1_filter_soundness (f : NNOracle) (hf : OracleSound f)
    (s : List Chunk) (q : String) (k : Nat) (ids : List String)
    (hids : ids ≠ []) (coll : Option String) :
    (∀ c ∈ FAISSStoreManager.similarity_search_with_filter f (some s) q k (some ids),
      docIdMem c.doc_id ids = true) ∧
    ((∀ c ∈ s, docIdMem c.doc_id ids = false) →
      FAISSStoreManager.similarity_search_with_filter f (some s) q k (some ids) = []) ∧
    (∀ c ∈ okDocs (ChromaStoreManager.similarity_search_with_filter f (some s) q k (some ids) none),
      docIdMem c.doc_id ids = true) ∧
    ((∀ c ∈ s, docIdMem c.doc_id ids = false) →
      ChromaStoreManager.similarity_search_with_filter f (some s) q k (some ids) none =
        .ok []) ∧
    FAISSStoreManager.similarity_search_with_filter f (some s) q k (some []) =
      FAISSStoreManager.similarity_search_with_filter f (some s) q k none ∧
    ChromaStoreManager.similarity_search_with_filter f (some s) q k (some []) coll =
      ChromaStoreManager.similarity_search_with_filter f (some s) q k none coll := by
  have htruthy : pyTruthyList (some ids) = true := by
    simp [pyTruthyList, List.isEmpty_iff, hids]
  refine ⟨?_, ?_, ?_, ?_, ?_, ?_⟩
  · intro c hc
    simp only [FAISSStoreManager.similarity_search_with_filter, htruthy, if_pos] at hc
    have := List.mem_of_mem_take hc
    exact (List.mem_filter.mp this).2
  · intro hnone
    simp only [FAISSStoreManager.similarity_search_with_filter, htruthy, if_pos]
    have hfil : (f s q (k * 5)).filter (fun d => docIdMem d.doc_id ((some ids).getD [])) = [] := by
      rw [List.filter_eq_nil_iff]
      intro c hc
      have hcs : c ∈ s := hf s q (k * 5) c hc
      simp [hnone c hcs]
    rw [hfil]
    simp
  · intro c hc
    simp only [ChromaStoreManager.similarity_search_with_filter,
      ChromaStoreManager.buildWhere, htruthy, pyTruthyStr, okDocs,
      ChromaStoreManager.engineSearch] at hc
    have := hf _ q k c hc
    exact (List.mem_filter.mp this).2
  · intro hnone
    have hw : ChromaStoreManager.buildWhere (some ids) none =
        some (.in_ids ids) := by
      simp [ChromaStoreManager.buildWhere, pyTruthyList, pyTruthyStr,
        List.isEmpty_iff, hids]
    simp only [ChromaStoreManager.similarity_search_with_filter, hw,
      ChromaStoreManager.engineSearch]
    have hfil : s.filter (ChromaStoreManager.whereMatches (.in_ids ids)) = [] := by
      rw [List.filter_eq_nil_iff]
      intro c hc
      simp [ChromaStoreManager.whereMatches, hnone c hc]
    rw [hfil]
    have hsub := hf [] q k
    have : f [] q k = [] := by
      rw [List.eq_nil_iff_forall_not_mem]
      intro c hc
      exact absurd (hsub c hc) (List.not_mem_nil c)
    rw [this]
  · simp [FAISSStoreManager.similarity_search_with_filter, pyTruthyList]
  · simp [ChromaStoreManager.similarity_search_with_filter,
      ChromaStoreManager.buildWhere, pyTruthyList]

/-- C1: witness — the amended theorem applied to a concrete sound oracle, a
one-chunk store and the nonempty filter set `["dX"]` (which matches nothing). -/
theorem C1_filter_soundness_witness :
    FAISSStoreManager.similarity_search_with_filter takeOracle (some [chunkD1])
      "q" 1 (some ["dX"]) = [] := by
  have h := C1_filter_soundness takeOracle takeOracle_sound [chunkD1] "q" 1
    ["dX"] (by decide) none
  exact h.2.1 (by decide)

/-- C7: counterexample — on an uninitialized/empty FAISS store, retriever
construction for plain vector search does not return an empty retriever: it
raises `ValueError` (the claim requires all listed operations to return empty
results rather than raise). -/
theorem C7_counterexample :
    FAISSStoreManager.as_retriever none =
      Except.error "FAISS store is empty. Upload documents first." := by
  rfl

/-- C7 (amended): on an uninitialized/empty FAISS store the pure search
operations (`similarity_search`, `similarity_search_with_filter`,
`get_all_documents`) return empty results without raising, but `as_retriever`
raises `ValueError`; on a Chroma store the operations return empty results
once `initialize` has been called (even on an empty collection), while before
`initialize` every operation raises (`AttributeError` on the `None` store). -/
theorem C7_empty_store_behavior (f : NNOracle) (hf : OracleSound f)
    (q : String) (k : Nat) (ids : Option (List String)) (coll : Option String) :
    FAISSStoreManager.similarity_search f none q k = [] ∧
    FAISSStoreManager.similarity_search_with_filter f none q k ids = [] ∧
    FAISSStoreManager.get_all_documents none = [] ∧
    (∀ r, FAISSStoreManager.as_retriever none ≠ Except.ok r) ∧
    ChromaStoreManager.similarity_search f (some []) q k = Except.ok [] ∧
    ChromaStoreManager.similarity_search_with_filter f (some []) q k ids coll =
      Except.ok [] ∧
    ChromaStoreManager.get_all_documents (some []) = Except.ok [] ∧
    ChromaStoreManager.similarity_search f none q k = Except.error "AttributeError" ∧
    ChromaStoreManager.similarity_search_with_filter f none q k ids coll =
      Except.error "AttributeError" ∧
    ChromaStoreManager.get_all_documents none = Except.error "AttributeError" := by
  have hempty : ∀ docs q' k', docs = ([] : List Chunk) → f docs q' k' = [] := by
    intro docs q' k' hd
    subst hd
    rw [List.eq_nil_iff_forall_not_mem]
    intro c hc
    exact absurd (hf [] q' k' c hc) (List.not_mem_nil c)
  refine ⟨rfl, ?_, rfl, ?_, ?_, ?_, rfl, rfl, rfl, rfl⟩
  · rfl
  · intro r h
    exact Except.noConfusion h
  · simp only [ChromaStoreManager.similarity_search, hempty _ q k rfl]
  · simp only [ChromaStoreManager.similarity_search_with_filter]
    cases hw : ChromaStoreManager.buildWhere ids coll with
    | none =>
      simp only [hw, ChromaStoreManager.engineSearch]
      rw [hempty [] q k rfl]
    | some w =>
      simp only [hw, ChromaStoreManager.engineSearch, List.filter_nil]
      rw [hempty [] q k rfl]

/-- C7: witness — the amended theorem applied to a concrete sound oracle. -/
theorem C7_empty_store_behavior_witness :
    FAISSStoreManager.similarity_search takeOracle none "q" 4 = [] ∧
    ChromaStoreManager.similarity_search takeOracle (some []) "q" 4 =
      Except.ok [] := by
  have h := C7_empty_store_behavior takeOracle takeOracle_sound "q" 4 none none
  exact ⟨h.1, h.2.2.2.2.1⟩

/-- Apply a sequence of FAISS `add_documents` batches to a store. -/
def FAISSStoreManager.run_adds (store : Option (List Chunk))
    (batches : List (List Chunk × String)) : Option (List Chunk) :=
  batches.foldl (fun st b => FAISSStoreManager.add_documents st b.1 b.2) store

/-- Apply a sequence of Chroma `add_documents` batches to an initialized store. -/
def ChromaStoreManager.run_adds (docs : List Chunk)
    (batches : List (List Chunk × String)) : List Chunk :=
  batches.foldl
    (fun st b => okDocs (ChromaStoreManager.add_documents (some st) b.1 b.2)) docs

/-- C8 helper: FAISS `delete_document` acts as a metadata filter on the
docstore contents, for any store state. -/
theorem FAISSStoreManager.delete_document_docs (store : Option (List Chunk))
    (doc_id : String) :
    FAISSStoreManager.get_all_documents
        (FAISSStoreManager.delete_document store doc_id) =
      (FAISSStoreManager.get_all_documents store).filter
        (fun d => decide (d.doc_id ≠ some doc_id)) := by
  cases store with
  | none => rfl
  | some s =>
    simp only [FAISSStoreManager.delete_document, FAISSStoreManager.get_all_documents]
    cases hfe : s.filter (fun d => decide (d.doc_id ≠ some doc_id)) with
    | nil => rfl
    | cons a t => rfl

/-- C8 helper: filtering by the same doc-id predicate twice is the same as
filtering once. -/
theorem filter_doc_id_idem (l : List Chunk) (doc_id : String) :
    (l.filter (fun d => decide (d.doc_id ≠ some doc_id))).filter
        (fun d => decide (d.doc_id ≠ some doc_id)) =
      l.filter (fun d => decide (d.doc_id ≠ some doc_id)) := by
  rw [List.filter_filter]
  exact List.filter_congr (fun c _ => Bool.and_self _)

/-- C8 helper: a run of `add_documents` with nonempty batches never leaves the
FAISS store in the `some []` state (in the source, `FAISS.from_documents` on an
empty batch would itself raise, so `some []` is unreachable). -/
theorem FAISSStoreManager.run_adds_ne_some_nil
    (batches : List (List Chunk × String)) (store : Option (List Chunk))
    (hb : ∀ b ∈ batches, b.1 ≠ []) (hst : store ≠ some []) :
    FAISSStoreManager.run_adds store batches ≠ some [] := by
  induction batches generalizing store with
  | nil => exact hst
  | cons b rest ih =>
    simp only [FAISSStoreManager.run_adds, List.foldl_cons]
    have hb' : ∀ x ∈ rest, x.1 ≠ [] := fun x hx => hb x (List.mem_cons_of_mem b hx)
    have hbadd : FAISSStoreManager.add_documents store b.1 b.2 ≠ some [] := by
      have hbne : b.1 ≠ [] := hb b (List.mem_cons_self b rest)
      cases store with
      | none =>
        simp only [FAISSStoreManager.add_documents, ne_eq, Option.some.injEq]
        intro hmap
        exact hbne (List.map_eq_nil_iff.mp hmap)
      | some s =>
        cases hse : s with
        | nil =>
          subst hse
          exact absurd rfl hst
        | cons a t =>
          simp [FAISSStoreManager.add_documents]
    exact ih (FAISSStoreManager.add_documents store b.1 b.2) hb' hbadd

/-- C8: on either backend, deleting `doc_id` after any sequence of
`add_documents` batches removes exactly the chunks whose metadata `doc_id`
equals the target (every other chunk survives verbatim, in order); deleting a
`doc_id` that no stored chunk carries is a no-op that does not raise (for
FAISS, given nonempty batches — `FAISS.from_documents` raises on an empty
batch, so an "empty but initialized" store is unreachable); and repeating the
delete is also a no-op. -/
theorem C8_delete_exact (batches : List (List Chunk × String)) (doc_id : String)
    (hb : ∀ b ∈ batches, b.1 ≠ []) :
    (FAISSStoreManager.get_all_documents
        (FAISSStoreManager.delete_document
          (FAISSStoreManager.run_adds none batches) doc_id) =
      (FAISSStoreManager.get_all_documents
          (FAISSStoreManager.run_adds none batches)).filter
        (fun d => decide (d.doc_id ≠ some doc_id))) ∧
    ((∀ c ∈ FAISSStoreManager.get_all_documents
          (FAISSStoreManager.run_adds none batches), c.doc_id ≠ some doc_id) →
      FAISSStoreManager.delete_document
          (FAISSStoreManager.run_adds none batches) doc_id =
        FAISSStoreManager.run_adds none batches) ∧
    (FAISSStoreManager.delete_document
        (FAISSStoreManager.delete_document
          (FAISSStoreManager.run_adds none batches) doc_id) doc_id =
      FAISSStoreManager.delete_document
        (FAISSStoreManager.run_adds none batches) doc_id) ∧
    (ChromaStoreManager.delete_document
        (some (ChromaStoreManager.run_adds [] batches)) doc_id =
      Except.ok ((ChromaStoreManager.run_adds [] batches).filter
        (fun d => decide (d.doc_id ≠ some doc_id)))) ∧
    ((∀ c ∈ ChromaStoreManager.run_adds [] batches, c.doc_id ≠ some doc_id) →
      ChromaStoreManager.delete_document
          (some (ChromaStoreManager.run_adds [] batches)) doc_id =
        Except.ok (ChromaStoreManager.run_adds [] batches)) ∧
    (ChromaStoreManager.delete_document
        (some (okDocs (ChromaStoreManager.delete_document
          (some (ChromaStoreManager.run_adds [] batches)) doc_id))) doc_id =
      ChromaStoreManager.delete_document
        (some (ChromaStoreManager.run_adds [] batches)) doc_id) := by
  have hfilter_id : ∀ (l : List Chunk), (∀ c ∈ l, c.doc_id ≠ some doc_id) →
      l.filter (fun d => decide (d.doc_id ≠ some doc_id)) = l := by
    intro l hl
    rw [List.filter_eq_self]
    intro c hc
    exact decide_eq_true (hl c hc)
  refine ⟨FAISSStoreManager.delete_document_docs _ _, ?_, ?_, rfl, ?_, ?_⟩
  · intro hall
    cases hst : FAISSStoreManager.run_adds none batches with
    | none => rfl
    | some s =>
      have hsnil : s ≠ [] := by
        intro hcon
        exact FAISSStoreManager.run_adds_ne_some_nil batches none hb
          (by intro h; exact Option.noConfusion h) (by rw [hst, hcon])
      have hall' : ∀ c ∈ s, c.doc_id ≠ some doc_id := by
        intro c hc
        refine hall c ?_
        rw [hst]
        exact hc
      simp only [FAISSStoreManager.delete_document]
      rw [hfilter_id s hall']
      cases hse : s with
      | nil => exact absurd hse hsnil
      | cons a t => rfl
  · cases hst : FAISSStoreManager.run_adds none batches with
    | none => rfl
    | some s =>
      cases hfe : s.filter (fun d => decide (d.doc_id ≠ some doc_id)) with
      | nil =>
        have h1 : FAISSStoreManager.delete_document (some s) doc_id = none := by
          simp only [FAISSStoreManager.delete_document, hfe]
        rw [h1]
        rfl
      | cons a t =>
        have h1 : FAISSStoreManager.delete_document (some s) doc_id = some (a :: t) := by
          simp only [FAISSStoreManager.delete_document, hfe]
        have hidem := filter_doc_id_idem s doc_id
        rw [hfe] at hidem
        rw [h1]
        simp only [FAISSStoreManager.delete_document, hidem]
  · intro hall
    simp only [ChromaStoreManager.delete_document, hfilter_id _ hall]
  · simp only [ChromaStoreManager.delete_document, okDocs,
      filter_doc_id_idem (ChromaStoreManager.run_adds [] batches) doc_id]

/-- C8: witness — one added batch under `d1`, then deletion of the unrelated
id `dX` is a no-op on both backends. -/
theorem C8_delete_exact_witness :
    FAISSStoreManager.delete_document
        (FAISSStoreManager.run_adds none [([chunkD1], "d1")]) "dX" =
      FAISSStoreManager.run_adds none [([chunkD1], "d1")] := by
  have h := C8_delete_exact [([chunkD1], "d1")] "dX" (by decide)
  exact h.2.1 (by decide)

namespace QueryRouter

/-
src/app/routers/query.py: `_smart_truncate` and the doc-id resolution /
retrieval steps of `query_documents`.  Text is modelled as a list of
characters so that Python's index arithmetic carries over directly.
-/

/-- Python `text.rfind(sub, 0, stop)`: the highest index at which `sub`
occurs entirely inside the first `stop` characters (and inside the text);
`none` models Python's `-1`. -/
def rfind (text sub : List Char) (stop : Nat) : Option Nat :=
  ((List.range stop).filter
    (fun i => decide (i + sub.length ≤ stop) && sub.isPrefixOf (text.drop i))).getLast?

/-- The sentence separators tried, in order: `". "`, `".\n"`, `"! "`, `"? "`. -/
def sentenceSeps : List (List Char) := [
  ['.', ' '], ['.', '\n'], ['!', ' '], ['?', ' ']]

/-- The ellipsis `"..."` appended on the word-boundary and hard-cut paths. -/
def ellipsis : List Char := ['.', '.', '.']

/-- The separator loop of `_smart_truncate`: return the first separator's
`rfind` index that lies beyond half of `max_len` (Python
`idx > max_len * 0.5`, i.e. `2 * idx > max_len` for an integer index). -/
def select_sep_idx (text : List Char) (max_len : Nat) :
    List (List Char) → Option Nat
  | [] => none
  | sep :: rest =>
    match rfind text sep max_len with
    | some idx =>
      if max_len < 2 * idx then some idx else select_sep_idx text max_len rest
    | none => select_sep_idx text max_len rest

/-- `_smart_truncate(text, max_len)`: identity when the text fits; otherwise
cut after the last sentence separator past the midpoint, else cut at the last
space past the midpoint and append `"..."`, else hard-cut at `max_len` and
append `"..."`. -/
def smart_truncate (text : List Char) (max_len : Nat) : List Char :=
  if text.length ≤ max_len then text
  else
    match select_sep_idx text max_len sentenceSeps with
    | some idx => text.take (idx + 1)
    | none =>
      match rfind text [' '] max_len with
      | some idx =>
        if max_len < 2 * idx then text.take idx ++ ellipsis
        else text.take max_len ++ ellipsis
      | none => text.take max_len ++ ellipsis

/-- A registry record as consulted by `query_documents` (`doc_id`, owning
`user_id`, collection labels). -/
structure RegDoc where
  doc_id : String
  user_id : String
  collections : List String
deriving DecidableEq, Repr

/-- The doc-id resolution of `query_documents` (src/app/routers/query.py,
lines 47-68): under user isolation, intersect the requested `doc_ids` and/or
`collection` with the user's documents; with neither given, fall back to the
user's documents — or to `None` (no filter at all) when the user owns no
documents.  Without isolation, only the collection filter applies. -/
def resolve_doc_ids (isolation : Bool) (registry : List RegDoc)
    (current_user : String) (req_doc_ids : Option (List String))
    (req_collection : Option String) : Option (List String) :=
  if isolation then
    let user_doc_ids :=
      (registry.filter (fun d => d.user_id == current_user)).map (fun d => d.doc_id)
    if pyTruthyStr req_collection then
      let coll := req_collection.getD ""
      let collection_doc_ids :=
        (registry.filter
          (fun d => d.user_id == current_user && d.collections.contains coll)).map
          (fun d => d.doc_id)
      if pyTruthyList req_doc_ids then
        some ((req_doc_ids.getD []).filter
          (fun d => collection_doc_ids.contains d && user_doc_ids.contains d))
      else some collection_doc_ids
    else if pyTruthyList req_doc_ids then
      some ((req_doc_ids.getD []).filter (fun d => user_doc_ids.contains d))
    else if user_doc_ids.isEmpty then none
    else some user_doc_ids
  else if pyTruthyStr req_collection then
    some ((registry.filter
      (fun d => d.collections.contains (req_collection.getD ""))).map
      (fun d => d.doc_id))
  else req_doc_ids

/-- The source-retrieval step of `query_documents` (lines 87-96): filtered
search when the resolved `doc_ids` is truthy, otherwise plain (unfiltered)
similarity search. -/
def query_retrieved_docs (f : NNOracle) (store : Option (List Chunk))
    (question : String) (top_k : Nat) (doc_ids : Option (List String)) :
    List Chunk :=
  if pyTruthyList doc_ids then
    FAISSStoreManager.similarity_search_with_filter f store question top_k doc_ids
  else
    FAISSStoreManager.similarity_search f store question top_k

/-- `query_documents` end to end (FAISS backend), from request to the chunks
whose truncated contents become the response sources. -/
def query_documents_sources (f : NNOracle) (store : Option (List Chunk))
    (isolation : Bool) (registry : List RegDoc) (current_user : String)
    (question : String) (top_k : Nat) (req_doc_ids : Option (List String))
    (req_collection : Option String) : List Chunk :=
  query_retrieved_docs f store question top_k
    (resolve_doc_ids isolation registry current_user req_doc_ids req_collection)

end QueryRouter

/-- Registry record used by the isolation counterexample: document `d1`
owned by user `u1`. -/
def regU1 : QueryRouter.RegDoc :=
  { doc_id := "d1", user_id := "u1", collections := ["other"] }

/-- C2: the isolation hole evaluated at its failing input.  With user
isolation enabled for documents, user `u2` owns zero documents, yet a query
with no `doc_ids` and no `collection` resolves the filter to `None`
(`list(user_doc_ids) if user_doc_ids else None`) and falls back to the
UNFILTERED similarity search, returning the chunk of document `d1` owned by
user `u1` — a source owned by another user, which the claim forbids. -/
theorem C2_isolation_breach :
    QueryRouter.resolve_doc_ids true [regU1] "u2" none none = none ∧
    QueryRouter.query_documents_sources takeOracle (some [chunkD1]) true
      [regU1] "u2" "q" 4 none none = [chunkD1] ∧
    chunkD1.doc_id = some "d1" ∧
    regU1.doc_id = "d1" ∧ regU1.user_id = "u1" ∧ "u1" ≠ "u2" := by
  refine ⟨by decide, ?_, by decide, by decide, by decide, by decide⟩
  decide

/-- Helper: the last element reported by `getLast?` is a member of the list. -/
theorem getLast?_mem_of_eq_some {α : Type} {l : List α} {a : α}
    (h : l.getLast? = some a) : a ∈ l := by
  have hm : a ∈ l.getLast? := by
    rw [h]
    rfl
  obtain ⟨hne, rfl⟩ := List.mem_getLast?_eq_getLast hm
  exact List.getLast_mem hne

/-- Helper: a found `rfind` index leaves room for the whole separator within
the first `stop` characters. -/
theorem QueryRouter.rfind_le (text sub : List Char) (stop idx : Nat)
    (h : QueryRouter.rfind text sub stop = some idx) :
    idx + sub.length ≤ stop := by
  unfold QueryRouter.rfind at h
  have hmem := getLast?_mem_of_eq_some h
  have hp := (List.mem_filter.mp hmem).2
  have hand := Bool.and_eq_true_iff.mp hp
  exact of_decide_eq_true hand.1

/-- Helper: a separator index selected by the loop comes from one of the
separators' `rfind`, so it satisfies that separator's room bound. -/
theorem QueryRouter.select_sep_idx_le (text : List Char) (max_len : Nat)
    (seps : List (List Char)) (idx : Nat)
    (h : QueryRouter.select_sep_idx text max_len seps = some idx) :
    ∃ sep ∈ seps, idx + sep.length ≤ max_len := by
  induction seps with
  | nil => exact Option.noConfusion h
  | cons sep rest ih =>
    rw [QueryRouter.select_sep_idx] at h
    split at h
    · next j hr =>
        split at h
        · next hc =>
            cases h
            exact ⟨sep, List.mem_cons_self _ _,
              QueryRouter.rfind_le text sep max_len _ hr⟩
        · next hc =>
            obtain ⟨s, hs, hle⟩ := ih h
            exact ⟨s, List.mem_cons_of_mem _ hs, hle⟩
    · next hr =>
        obtain ⟨s, hs, hle⟩ := ih h
        exact ⟨s, List.mem_cons_of_mem _ hs, hle⟩

/-- Helper: a separator starting with a character other than `a` is never a
prefix of a run of `a`s. -/
theorem cons_isPrefixOf_replicate (c : Char) (cs : List Char) (n : Nat)
    (hc : c ≠ 'a') :
    (c :: cs).isPrefixOf (List.replicate n 'a') = false := by
  cases n with
  | zero => rfl
  | succ m =>
    have hb : (c == 'a') = false := beq_eq_false_iff_ne.mpr hc
    simp [List.replicate, List.isPrefixOf, hb]

/-- Helper: `rfind` finds nothing in a pure run of `a`s for such separators. -/
theorem QueryRouter.rfind_replicate_none (c : Char) (cs : List Char)
    (n stop : Nat) (hc : c ≠ 'a') :
    QueryRouter.rfind (List.replicate n 'a') (c :: cs) stop = none := by
  unfold QueryRouter.rfind
  have hfil : (List.range stop).filter
      (fun i => decide (i + (c :: cs).length ≤ stop) &&
        (c :: cs).isPrefixOf ((List.replicate n 'a').drop i)) = [] := by
    rw [List.filter_eq_nil_iff]
    intro i _
    rw [List.drop_replicate, cons_isPrefixOf_replicate c cs _ hc]
    simp
  rw [hfil]
  rfl

/-- Helper: the separator loop finds nothing in a pure run of `a`s. -/
theorem QueryRouter.select_sep_idx_replicate_none (n stop : Nat) :
    QueryRouter.select_sep_idx (List.replicate n 'a') stop
      QueryRouter.sentenceSeps = none := by
  simp only [QueryRouter.sentenceSeps, QueryRouter.select_sep_idx,
    QueryRouter.rfind_replicate_none '.' [' '] n stop (by decide),
    QueryRouter.rfind_replicate_none '.' ['\n'] n stop (by decide),
    QueryRouter.rfind_replicate_none '!' [' '] n stop (by decide),
    QueryRouter.rfind_replicate_none '?' [' '] n stop (by decide)]

/-- C6: counterexample — a 501-character text with no sentence or word
boundary at all.  The claim says the truncated content is at most 500
characters and never cut mid-word, but the hard-cut fallback produces the
first 500 characters plus `"..."`: 503 characters, cut in the middle of the
single 501-character word. -/
theorem C6_counterexample :
    ¬ ((QueryRouter.smart_truncate (List.replicate 501 'a') 500).length ≤ 500) := by
  have h : QueryRouter.smart_truncate (List.replicate 501 'a') 500 =
      (List.replicate 501 'a').take 500 ++ QueryRouter.ellipsis := by
    unfold QueryRouter.smart_truncate
    rw [if_neg (by simp)]
    rw [QueryRouter.select_sep_idx_replicate_none,
      QueryRouter.rfind_replicate_none ' ' [] 501 500 (by decide)]
  rw [h]
  simp [QueryRouter.ellipsis]

/-- Helper: in a strictly increasing list, every member is at most the last
element. -/
theorem le_getLast_of_pairwise_lt (l : List Nat) (j : Nat)
    (hp : l.Pairwise (· < ·)) (hl : l.getLast? = some j) :
    ∀ i ∈ l, i ≤ j := by
  induction l with
  | nil =>
    intro i hi
    exact absurd hi (List.not_mem_nil i)
  | cons a t ih =>
    intro i hi
    cases t with
    | nil =>
      have ha : a = j := by simpa using hl
      have hia : i = a := by simpa using hi
      omega
    | cons b t2 =>
      have hl2 : (b :: t2).getLast? = some j := by
        rw [List.getLast?_cons_cons] at hl
        exact hl
      rcases List.mem_cons.mp hi with hia | hit
      · subst hia
        have hj : j ∈ b :: t2 := getLast?_mem_of_eq_some hl2
        have := (List.pairwise_cons.mp hp).1 j hj
        omega
      · exact ih (List.pairwise_cons.mp hp).2 hl2 i hit

/-- Helper: the index found by `rfind` is an actual occurrence of the
separator. -/
theorem QueryRouter.rfind_isPrefixOf (text sub : List Char) (stop idx : Nat)
    (h : QueryRouter.rfind text sub stop = some idx) :
    sub.isPrefixOf (text.drop idx) = true := by
  unfold QueryRouter.rfind at h
  have hmem := getLast?_mem_of_eq_some h
  have hp := (List.mem_filter.mp hmem).2
  exact (Bool.and_eq_true_iff.mp hp).2

/-- Helper: `rfind` returns the HIGHEST matching index — every other
in-window occurrence is at most the found one. -/
theorem QueryRouter.rfind_ge (text sub : List Char) (stop idx i : Nat)
    (h : QueryRouter.rfind text sub stop = some idx)
    (hi : i < stop) (hfit : i + sub.length ≤ stop)
    (hpre : sub.isPrefixOf (text.drop i) = true) : i ≤ idx := by
  unfold QueryRouter.rfind at h
  refine le_getLast_of_pairwise_lt _ _ ?_ h i ?_
  · exact (List.pairwise_lt_range stop).filter _
  · rw [List.mem_filter]
    refine ⟨List.mem_range.mpr hi, ?_⟩
    rw [decide_eq_true hfit, hpre]
    rfl

/-- Helper: `rfind` finds an index whenever some in-window occurrence exists
(completeness), and the found index is at least that occurrence. -/
theorem QueryRouter.rfind_complete (text sub : List Char) (stop i : Nat)
    (hi : i < stop) (hfit : i + sub.length ≤ stop)
    (hpre : sub.isPrefixOf (text.drop i) = true) :
    ∃ j, QueryRouter.rfind text sub stop = some j ∧ i ≤ j := by
  cases hr : QueryRouter.rfind text sub stop with
  | some j =>
    exact ⟨j, rfl, QueryRouter.rfind_ge text sub stop j i hr hi hfit hpre⟩
  | none =>
    exfalso
    have hmem : i ∈ (List.range stop).filter
        (fun i => decide (i + sub.length ≤ stop) && sub.isPrefixOf (text.drop i)) := by
      rw [List.mem_filter]
      refine ⟨List.mem_range.mpr hi, ?_⟩
      rw [decide_eq_true hfit, hpre]
      rfl
    have hne := List.ne_nil_of_mem hmem
    unfold QueryRouter.rfind at hr
    rw [List.getLast?_eq_getLast_of_ne_nil hne] at hr
    exact Option.noConfusion hr

/-- Helper: an index selected by the separator loop is the `rfind` result of
one of the listed separators and lies past the midpoint. -/
theorem QueryRouter.select_sep_idx_found (text : List Char) (max_len : Nat)
    (seps : List (List Char)) (idx : Nat)
    (h : QueryRouter.select_sep_idx text max_len seps = some idx) :
    ∃ sep ∈ seps, QueryRouter.rfind text sep max_len = some idx ∧
      max_len < 2 * idx := by
  induction seps with
  | nil => exact Option.noConfusion h
  | cons sep rest ih =>
    rw [QueryRouter.select_sep_idx] at h
    split at h
    · next j hr =>
        split at h
        · next hc =>
            cases h
            exact ⟨sep, List.mem_cons_self _ _, hr, hc⟩
        · next hc =>
            obtain ⟨s, hs, hfound, hmid⟩ := ih h
            exact ⟨s, List.mem_cons_of_mem _ hs, hfound, hmid⟩
    · next hr =>
        obtain ⟨s, hs, hfound, hmid⟩ := ih h
        exact ⟨s, List.mem_cons_of_mem _ hs, hfound, hmid⟩

/-- Helper: the separator loop finds an index whenever ANY listed separator
occurs in-window past the midpoint (completeness of the sentence-boundary
search). -/
theorem QueryRouter.select_sep_idx_complete (text : List Char) (max_len : Nat)
    (seps : List (List Char))
    (hex : ∃ sep ∈ seps, ∃ i, i + sep.length ≤ max_len ∧ 1 ≤ sep.length ∧
      sep.isPrefixOf (text.drop i) = true ∧ max_len < 2 * i) :
    QueryRouter.select_sep_idx text max_len seps ≠ none := by
  induction seps with
  | nil =>
    obtain ⟨sep, hs, _⟩ := hex
    exact absurd hs (List.not_mem_nil sep)
  | cons sep rest ih =>
    intro hcon
    rw [QueryRouter.select_sep_idx] at hcon
    split at hcon
    · next j hr =>
        split at hcon
        · next hc => exact Option.noConfusion hcon
        · next hc =>
            obtain ⟨s, hs, i, hfit, hlen1, hpre, hmid⟩ := hex
            rcases List.mem_cons.mp hs with hshead | hsrest
            · subst hshead
              have hi : i < max_len := by omega
              have := QueryRouter.rfind_ge text s max_len j i hr hi hfit hpre
              omega
            · exact ih ⟨s, hsrest, i, hfit, hlen1, hpre, hmid⟩ hcon
    · next hr =>
        obtain ⟨s, hs, i, hfit, hlen1, hpre, hmid⟩ := hex
        rcases List.mem_cons.mp hs with hshead | hsrest
        · subst hshead
          have hi : i < max_len := by omega
          obtain ⟨j, hj, _⟩ :=
            QueryRouter.rfind_complete text s max_len i hi hfit hpre
          rw [hr] at hj
          exact Option.noConfusion hj
        · exact ih ⟨s, hsrest, i, hfit, hlen1, hpre, hmid⟩ hcon

/-- C6 (amended): the source content placed in a query response is the
truncation of the chunk content to at most 503 characters (500 characters of
content plus an optional 3-character ellipsis); text that fits is returned
verbatim, and otherwise the cut lands on a sentence or word boundary whenever
such a boundary exists past the midpoint of the 500-character window — a
sentence separator occurring at the cut position yields `text[:idx+1]`, else
a space at the cut position yields `text[:idx] + "..."` — and only when NO
sentence separator or space occurs in-window past the midpoint does the last
resort fire: a hard cut `text[:500] + "..."`, possibly mid-word. -/
theorem C6_truncate_bounds (text : List Char) :
    (QueryRouter.smart_truncate text 500).length ≤ 503 ∧
    (text.length ≤ 500 → QueryRouter.smart_truncate text 500 = text) ∧
    (500 < text.length →
      (∃ idx sep, sep ∈ QueryRouter.sentenceSeps ∧
          sep.isPrefixOf (text.drop idx) = true ∧ idx + sep.length ≤ 500 ∧
          500 < 2 * idx ∧
          QueryRouter.smart_truncate text 500 = text.take (idx + 1)) ∨
      (∃ idx, [' '].isPrefixOf (text.drop idx) = true ∧ idx + 1 ≤ 500 ∧
          500 < 2 * idx ∧
          QueryRouter.smart_truncate text 500 =
            text.take idx ++ QueryRouter.ellipsis) ∨
      ((∀ i sep, sep ∈ QueryRouter.sentenceSeps ++ [[' ']] →
          500 < 2 * i → i + sep.length ≤ 500 →
          sep.isPrefixOf (text.drop i) = false) ∧
        QueryRouter.smart_truncate text 500 =
          text.take 500 ++ QueryRouter.ellipsis)) := by
  by_cases hlen : text.length ≤ 500
  · have heq : QueryRouter.smart_truncate text 500 = text := by
      unfold QueryRouter.smart_truncate
      rw [if_pos hlen]
    exact ⟨by rw [heq]; omega, fun _ => heq, fun hgt => absurd hgt (by omega)⟩
  · cases hsel : QueryRouter.select_sep_idx text 500 QueryRouter.sentenceSeps with
    | some idx =>
      have heq : QueryRouter.smart_truncate text 500 = text.take (idx + 1) := by
        unfold QueryRouter.smart_truncate
        rw [if_neg hlen, hsel]
      obtain ⟨sep, hsep, hfound, hmid⟩ :=
        QueryRouter.select_sep_idx_found text 500 _ idx hsel
      have hpre := QueryRouter.rfind_isPrefixOf text sep 500 idx hfound
      have hfit := QueryRouter.rfind_le text sep 500 idx hfound
      have hsl : sep.length = 2 := by
        fin_cases hsep <;> rfl
      refine ⟨?_, fun hfits => absurd hfits hlen, fun _ =>
        Or.inl ⟨idx, sep, hsep, hpre, hfit, hmid, heq⟩⟩
      rw [heq]
      have h1 := List.length_take_le (idx + 1) text
      omega
    | none =>
      cases hrf : QueryRouter.rfind text [' '] 500 with
      | some idx =>
        have hpre := QueryRouter.rfind_isPrefixOf text [' '] 500 idx hrf
        have hfit := QueryRouter.rfind_le text [' '] 500 idx hrf
        simp only [List.length_cons, List.length_nil] at hfit
        by_cases hc : 500 < 2 * idx
        · have heq : QueryRouter.smart_truncate text 500 =
              text.take idx ++ QueryRouter.ellipsis := by
            unfold QueryRouter.smart_truncate
            rw [if_neg hlen, hsel, hrf]
            show (if 500 < 2 * idx then text.take idx ++ QueryRouter.ellipsis
                  else text.take 500 ++ QueryRouter.ellipsis) = _
            rw [if_pos hc]
          refine ⟨?_, fun hfits => absurd hfits hlen, fun _ =>
            Or.inr (Or.inl ⟨idx, hpre, hfit, hc, heq⟩)⟩
          rw [heq]
          have h1 := List.length_take_le idx text
          have h2 : (text.take idx ++ QueryRouter.ellipsis).length =
              (text.take idx).length + 3 := by
            simp [QueryRouter.ellipsis]
          omega
        · have heq : QueryRouter.smart_truncate text 500 =
              text.take 500 ++ QueryRouter.ellipsis := by
            unfold QueryRouter.smart_truncate
            rw [if_neg hlen, hsel, hrf]
            show (if 500 < 2 * idx then text.take idx ++ QueryRouter.ellipsis
                  else text.take 500 ++ QueryRouter.ellipsis) = _
            rw [if_neg hc]
          have hnob : ∀ i sep, sep ∈ QueryRouter.sentenceSeps ++ [[' ']] →
              500 < 2 * i → i + sep.length ≤ 500 →
              sep.isPrefixOf (text.drop i) = false := by
            intro i sep hsepmem hmidi hfiti
            by_contra hcon
            rw [Bool.not_eq_false] at hcon
            rcases List.mem_append.mp hsepmem with hsent | hspace
            · have hlen1 : 1 ≤ sep.length := by
                fin_cases hsent <;> decide
              exact QueryRouter.select_sep_idx_complete text 500
                QueryRouter.sentenceSeps ⟨sep, hsent, i, hfiti, hlen1, hcon, hmidi⟩ hsel
            · have hseq : sep = [' '] := List.mem_singleton.mp hspace
              subst hseq
              have hi : i < 500 := by
                simp only [List.length_cons, List.length_nil] at hfiti
                omega
              obtain ⟨j, hj, hij⟩ :=
                QueryRouter.rfind_complete text [' '] 500 i hi hfiti hcon
              rw [hrf] at hj
              have hji := Option.some.inj hj
              omega
          refine ⟨?_, fun hfits => absurd hfits hlen, fun _ =>
            Or.inr (Or.inr ⟨hnob, heq⟩)⟩
          rw [heq]
          have h1 := List.length_take_le 500 text
          have h2 : (text.take 500 ++ QueryRouter.ellipsis).length =
              (text.take 500).length + 3 := by
            simp [QueryRouter.ellipsis]
          omega
      | none =>
        have heq : QueryRouter.smart_truncate text 500 =
            text.take 500 ++ QueryRouter.ellipsis := by
          unfold QueryRouter.smart_truncate
          rw [if_neg hlen, hsel, hrf]
        have hnob : ∀ i sep, sep ∈ QueryRouter.sentenceSeps ++ [[' ']] →
            500 < 2 * i → i + sep.length ≤ 500 →
            sep.isPrefixOf (text.drop i) = false := by
          intro i sep hsepmem hmidi hfiti
          by_contra hcon
          rw [Bool.not_eq_false] at hcon
          rcases List.mem_append.mp hsepmem with hsent | hspace
          · have hlen1 : 1 ≤ sep.length := by
              fin_cases hsent <;> decide
            exact QueryRouter.select_sep_idx_complete text 500
              QueryRouter.sentenceSeps ⟨sep, hsent, i, hfiti, hlen1, hcon, hmidi⟩ hsel
          · have hseq : sep = [' '] := List.mem_singleton.mp hspace
            subst hseq
            have hi : i < 500 := by
              simp only [List.length_cons, List.length_nil] at hfiti
              omega
            obtain ⟨j, hj, _⟩ :=
              QueryRouter.rfind_complete text [' '] 500 i hi hfiti hcon
            rw [hrf] at hj
            exact Option.noConfusion hj
        refine ⟨?_, fun hfits => absurd hfits hlen, fun _ =>
          Or.inr (Or.inr ⟨hnob, heq⟩)⟩
        rw [heq]
        have h1 := List.length_take_le 500 text
        have h2 : (text.take 500 ++ QueryRouter.ellipsis).length =
            (text.take 500).length + 3 := by
          simp [QueryRouter.ellipsis]
        omega

/-
src/app/rag/memory.py (`SessionMemoryManager`) and src/app/db/repositories.py
(`ChatSessionRepository`): bounded, expiring session memory.  Wall-clock time
is modelled as a natural number of seconds; the per-session state is the
message list plus `last_access`.
-/

/-- One chat message: a human (`true`) or assistant message with its content. -/
structure Msg where
  isHuman : Bool
  content : String
deriving DecidableEq, Repr

/-- The human/assistant pair appended by one exchange, in fixed order. -/
def exchangeMsgs (question answer : String) : List Msg :=
  [{ isHuman := true, content := question },
   { isHuman := false, content := answer }]

/-- Full chronological transcript of a sequence of exchanges. -/
def transcript : List (String × String) → List Msg
  | [] => []
  | (q, a) :: rest => exchangeMsgs q a ++ transcript rest

/-- State of one session: its messages and the `last_access` timestamp. -/
structure SessionState where
  messages : List Msg
  last_access : Nat
deriving DecidableEq, Repr

/-- Messages of a possibly-absent session (`none` = no entry in the store). -/
def sessMessages : Option SessionState → List Msg
  | none => []
  | some st => st.messages

namespace SessionMemoryManager

/-- The trim step of `add_exchange`: Python `lst[-max_messages:]`, applied
only when `len(lst) > max_messages`.  Note that `lst[-0:]` is the WHOLE list,
so `max_messages = 0` never trims. -/
def trim (max_messages : Nat) (l : List Msg) : List Msg :=
  if l.length > max_messages then
    if max_messages = 0 then l else l.drop (l.length - max_messages)
  else l

/-- `_cleanup_expired`, restricted to one session: evict it when idle longer
than `session_ttl` (`now - last > self._session_ttl`). -/
def cleanup_expired (session_ttl now : Nat) (s : Option SessionState) :
    Option SessionState :=
  match s with
  | none => none
  | some st => if now - st.last_access > session_ttl then none else some st

/-- `get_history`: sweep first; an absent (or just-evicted) session yields
`[]`; otherwise touch `last_access` and return a copy of the messages. -/
def get_history (session_ttl now : Nat) (s : Option SessionState) :
    List Msg × Option SessionState :=
  match cleanup_expired session_ttl now s with
  | none => ([], none)
  | some st => (st.messages, some { st with last_access := now })

/-- `add_exchange`: NO expiry sweep; create the session if absent, append the
human then the assistant message, trim, touch `last_access`. -/
def add_exchange (max_messages now : Nat) (question answer : String)
    (s : Option SessionState) : Option SessionState :=
  some { messages := trim max_messages (sessMessages s ++ exchangeMsgs question answer),
         last_access := now }

/-- A sequence of `add_exchange` calls on one session. -/
def run (max_messages now : Nat) (s : Option SessionState) :
    List (String × String) → Option SessionState
  | [] => s
  | (q, a) :: rest => run max_messages now (add_exchange max_messages now q a s) rest

end SessionMemoryManager

namespace ChatSessionRepository

/-- The trim step of the repository's `add_exchange`: delete the oldest
`total - max_messages` messages whenever `total > max_messages` (so
`max_messages = 0` deletes everything — unlike the in-memory slice). -/
def trim (max_messages : Nat) (l : List Msg) : List Msg :=
  if l.length > max_messages then l.drop (l.length - max_messages) else l

/-- `_cleanup_expired`: delete every session with
`last_access < now - session_ttl` (the cutoff timestamp). -/
def cleanup_expired (session_ttl now : Nat) (s : Option SessionState) :
    Option SessionState :=
  match s with
  | none => none
  | some st => if st.last_access < now - session_ttl then none else some st

/-- `get_history`: sweep first; absent session yields `[]`; otherwise touch
`last_access` and return the messages in chronological order. -/
def get_history (session_ttl now : Nat) (s : Option SessionState) :
    List Msg × Option SessionState :=
  match cleanup_expired session_ttl now s with
  | none => ([], none)
  | some st => (st.messages, some { st with last_access := now })

/-- `add_exchange`: NO expiry sweep; ensure the session row exists, insert
the human/assistant pair, touch `last_access`, then trim to `max_messages`. -/
def add_exchange (max_messages now : Nat) (question answer : String)
    (s : Option SessionState) : Option SessionState :=
  some { messages := trim max_messages (sessMessages s ++ exchangeMsgs question answer),
         last_access := now }

/-- A sequence of `add_exchange` calls on one session. -/
def run (max_messages now : Nat) (s : Option SessionState) :
    List (String × String) → Option SessionState
  | [] => s
  | (q, a) :: rest => run max_messages now (add_exchange max_messages now q a s) rest

end ChatSessionRepository

/-- Helper: for a positive message bound the two trim implementations agree. -/
theorem trim_eq_of_pos (m : Nat) (hm : 1 ≤ m) (l : List Msg) :
    SessionMemoryManager.trim m l = ChatSessionRepository.trim m l := by
  unfold SessionMemoryManager.trim ChatSessionRepository.trim
  have hm0 : m ≠ 0 := by omega
  simp [hm0]

/-- Helper: for a positive bound, trimming keeps `min (length) (bound)`
messages. -/
theorem trim_length_of_pos (m : Nat) (hm : 1 ≤ m) (l : List Msg) :
    (SessionMemoryManager.trim m l).length = min l.length m := by
  unfold SessionMemoryManager.trim
  have hm0 : m ≠ 0 := by omega
  by_cases h : l.length > m
  · rw [if_pos h, if_neg hm0, List.length_drop]
    omega
  · rw [if_neg h]
    omega

/-- Helper: the trimmed list is a suffix of the untrimmed one. -/
theorem trim_suffix (m : Nat) (l : List Msg) :
    List.IsSuffix (SessionMemoryManager.trim m l) l := by
  unfold SessionMemoryManager.trim
  by_cases h : l.length > m
  · rw [if_pos h]
    by_cases h0 : m = 0
    · rw [if_pos h0]
    · rw [if_neg h0]
      exact List.drop_suffix _ _
  · rw [if_neg h]

/-- Helper: appending the same tail preserves the suffix relation. -/
theorem isSuffix_append_same {α : Type} (l t e : List α)
    (h : List.IsSuffix l t) : List.IsSuffix (l ++ e) (t ++ e) := by
  obtain ⟨u, rfl⟩ := h
  exact ⟨u, (List.append_assoc u l e).symm⟩

/-- Helper: invariant of a run of in-memory `add_exchange` calls — the stored
list always holds `min (2 * exchanges) max_messages` messages and is a suffix
of the full transcript. -/
theorem SessionMemoryManager.run_invariant (m now : Nat) (hm : 1 ≤ m)
    (xs : List (String × String)) (s : Option SessionState) (T : List Msg)
    (k : Nat) (hlen : (sessMessages s).length = min (2 * k) m)
    (hsuf : List.IsSuffix (sessMessages s) T) :
    (sessMessages (SessionMemoryManager.run m now s xs)).length =
      min (2 * (k + xs.length)) m ∧
    List.IsSuffix (sessMessages (SessionMemoryManager.run m now s xs))
      (T ++ transcript xs) := by
  induction xs generalizing s T k with
  | nil =>
    refine ⟨by simpa using hlen, ?_⟩
    simp only [transcript, List.append_nil]
    exact hsuf
  | cons qa rest ih =>
    obtain ⟨q, a⟩ := qa
    have hstep_len :
        (sessMessages (SessionMemoryManager.add_exchange m now q a s)).length =
          min (2 * (k + 1)) m := by
      show (SessionMemoryManager.trim m
        (sessMessages s ++ exchangeMsgs q a)).length = min (2 * (k + 1)) m
      rw [trim_length_of_pos m hm, List.length_append]
      rw [hlen]
      simp only [exchangeMsgs, List.length_cons, List.length_nil]
      omega
    have hstep_suf :
        List.IsSuffix (sessMessages (SessionMemoryManager.add_exchange m now q a s))
          (T ++ exchangeMsgs q a) :=
      (trim_suffix m _).trans (isSuffix_append_same _ _ _ hsuf)
    have hrest := ih (SessionMemoryManager.add_exchange m now q a s)
      (T ++ exchangeMsgs q a) (k + 1) hstep_len hstep_suf
    refine ⟨?_, ?_⟩
    · rw [show SessionMemoryManager.run m now s ((q, a) :: rest) =
        SessionMemoryManager.run m now
          (SessionMemoryManager.add_exchange m now q a s) rest from rfl]
      rw [hrest.1]
      congr 1
      simp [List.length_cons]
      omega
    · rw [show SessionMemoryManager.run m now s ((q, a) :: rest) =
        SessionMemoryManager.run m now
          (SessionMemoryManager.add_exchange m now q a s) rest from rfl]
      have := hrest.2
      rw [List.append_assoc] at this
      exact this

/-- Helper: with a positive bound the repository run agrees with the
in-memory run. -/
theorem ChatSessionRepository.run_eq_mem (m now : Nat) (hm : 1 ≤ m)
    (xs : List (String × String)) (s : Option SessionState) :
    ChatSessionRepository.run m now s xs = SessionMemoryManager.run m now s xs := by
  induction xs generalizing s with
  | nil => rfl
  | cons qa rest ih =>
    obtain ⟨q, a⟩ := qa
    show ChatSessionRepository.run m now
        (ChatSessionRepository.add_exchange m now q a s) rest = _
    rw [show ChatSessionRepository.add_exchange m now q a s =
        SessionMemoryManager.add_exchange m now q a s from by
      unfold ChatSessionRepository.add_exchange SessionMemoryManager.add_exchange
      rw [trim_eq_of_pos m hm]]
    exact ih _

/-- Helper: explicit behaviour of the in-memory `get_history` on one session. -/
theorem SessionMemoryManager.get_history_spec_mem (ttl t : Nat) (st : SessionState) :
    SessionMemoryManager.get_history ttl t (some st) =
      if t - st.last_access > ttl then ([], none)
      else (st.messages, some { st with last_access := t }) := by
  unfold SessionMemoryManager.get_history SessionMemoryManager.cleanup_expired
  by_cases hx : t - st.last_access > ttl
  · simp only [if_pos hx]
  · simp only [if_neg hx]

/-- Helper: explicit behaviour of the repository `get_history` on one session. -/
theorem ChatSessionRepository.get_history_spec_db (ttl t : Nat) (st : SessionState) :
    ChatSessionRepository.get_history ttl t (some st) =
      if st.last_access < t - ttl then ([], none)
      else (st.messages, some { st with last_access := t }) := by
  unfold ChatSessionRepository.get_history ChatSessionRepository.cleanup_expired
  by_cases hx : st.last_access < t - ttl
  · simp only [if_pos hx]
  · simp only [if_neg hx]

/-- C4: counterexample — with `max_messages = 0`, Python's `lst[-0:]` slice is
the whole list, so the in-memory manager never trims: one exchange leaves 2
stored messages where the claim requires exactly `min(2·1, 0) = 0`. -/
theorem C4_counterexample :
    ¬ ((sessMessages (SessionMemoryManager.run 0 0 none [("Q1", "A1")])).length =
        min (2 * 1) 0) := by
  decide

/-- C4 (amended): for every POSITIVE `max_messages`, after `n` exchanges the
stored history holds exactly `min (2 n) max_messages` messages, the retained
messages are a suffix of the full chronological transcript (i.e. the most
recent ones in original order), and the DB-backed repository behaves
identically; for `max_messages = 0` the in-memory manager never trims (the
`lst[-0:]` slice is the whole list). -/
theorem C4_exchange_count (m now : Nat) (hm : 1 ≤ m)
    (xs : List (String × String)) :
    (sessMessages (SessionMemoryManager.run m now none xs)).length =
      min (2 * xs.length) m ∧
    List.IsSuffix (sessMessages (SessionMemoryManager.run m now none xs))
      (transcript xs) ∧
    ChatSessionRepository.run m now none xs =
      SessionMemoryManager.run m now none xs := by
  have h := SessionMemoryManager.run_invariant m now hm xs none [] 0
    (by simp [sessMessages]) (by simp [sessMessages])
  refine ⟨?_, ?_, ChatSessionRepository.run_eq_mem m now hm xs none⟩
  · rw [h.1]
    omega
  · have := h.2
    simpa using this

/-- C4: witness — three exchanges with `max_messages = 4` (the scenario of
tests/test_memory.py) keep exactly 4 messages. -/
theorem C4_exchange_count_witness :
    (sessMessages (SessionMemoryManager.run 4 0 none
      [("Q1", "A1"), ("Q2", "A2"), ("Q3", "A3")])).length = min (2 * 3) 4 :=
  (C4_exchange_count 4 0 (by decide) [("Q1", "A1"), ("Q2", "A2"), ("Q3", "A3")]).1

/-- Helper: a transcript always has even length (`2 ·` number of exchanges). -/
theorem transcript_length (xs : List (String × String)) :
    (transcript xs).length = 2 * xs.length := by
  induction xs with
  | nil => rfl
  | cons qa rest ih =>
    obtain ⟨q, a⟩ := qa
    simp only [transcript, exchangeMsgs, List.length_append, List.length_cons,
      List.length_nil, ih]
    omega

/-- Helper: an even-length suffix of a transcript is itself the transcript of
a suffix of the exchanges (so it starts at an exchange boundary and
alternates human/assistant). -/
theorem transcript_suffix_even (xs : List (String × String)) (l : List Msg)
    (hsuf : List.IsSuffix l (transcript xs)) (heven : l.length % 2 = 0) :
    ∃ ys, List.IsSuffix ys xs ∧ l = transcript ys := by
  induction xs with
  | nil =>
    rw [show transcript [] = [] from rfl, List.suffix_nil] at hsuf
    exact ⟨[], List.suffix_refl [], by rw [hsuf]; rfl⟩
  | cons qa rest ih =>
    obtain ⟨q, a⟩ := qa
    have hts : transcript ((q, a) :: rest) =
        { isHuman := true, content := q } ::
          ({ isHuman := false, content := a } :: transcript rest) := rfl
    rw [hts, List.suffix_cons_iff] at hsuf
    cases hsuf with
    | inl hwhole =>
      exact ⟨(q, a) :: rest, List.suffix_refl _, by rw [hwhole, hts]⟩
    | inr htail =>
      rw [List.suffix_cons_iff] at htail
      cases htail with
      | inl hodd =>
        have hlen : l.length = 1 + 2 * rest.length := by
          rw [hodd]
          simp [transcript_length rest]
          omega
        omega
      | inr htr =>
        obtain ⟨ys, hys, hl⟩ := ih htr
        exact ⟨ys, hys.trans (List.suffix_cons_iff.mpr (Or.inr (List.suffix_refl _))), hl⟩

/-- C5: counterexample — with odd `max_messages = 3`, two exchanges produce 4
messages which are trimmed to the last 3: an odd-length history that no
longer starts with a human message, violating the even-length pairing
invariant. -/
theorem C5_counterexample :
    ¬ ((sessMessages (SessionMemoryManager.run 3 0 none
        [("Q1", "A1"), ("Q2", "A2")])).length % 2 = 0) := by
  decide

/-- C5 (amended): for every EVEN positive `max_messages` the stored sequence
after any sequence of exchanges has even length, stays within
`max_messages`, and is the transcript of a suffix of the exchanges (hence
alternating human/assistant pairs); `get_history` never mutates the stored
messages.  For odd `max_messages` the trim slices mid-pair and the evenness
invariant fails. -/
theorem C5_even_invariant (m now : Nat) (hm : 1 ≤ m) (hme : m % 2 = 0)
    (xs : List (String × String)) :
    (sessMessages (SessionMemoryManager.run m now none xs)).length % 2 = 0 ∧
    (sessMessages (SessionMemoryManager.run m now none xs)).length ≤ m ∧
    (∃ ys, List.IsSuffix ys xs ∧
      sessMessages (SessionMemoryManager.run m now none xs) = transcript ys) ∧
    (∀ ttl t s, (SessionMemoryManager.get_history ttl t s).2 = none ∨
      sessMessages ((SessionMemoryManager.get_history ttl t s).2) =
        sessMessages s) ∧
    ChatSessionRepository.run m now none xs =
      SessionMemoryManager.run m now none xs := by
  have h := SessionMemoryManager.run_invariant m now hm xs none [] 0
    (by simp [sessMessages]) (by simp [sessMessages])
  have hsuf : List.IsSuffix (sessMessages (SessionMemoryManager.run m now none xs))
      (transcript xs) := by
    have := h.2
    simpa using this
  have hlen := h.1
  refine ⟨by omega, by omega, ?_, ?_, ChatSessionRepository.run_eq_mem m now hm xs none⟩
  · exact transcript_suffix_even xs _ hsuf (by omega)
  · intro ttl t s
    cases s with
    | none => exact Or.inl rfl
    | some st =>
      rw [SessionMemoryManager.get_history_spec_mem]
      by_cases hx : t - st.last_access > ttl
      · rw [if_pos hx]
        exact Or.inl rfl
      · rw [if_neg hx]
        exact Or.inr rfl

/-- C5: witness — two exchanges with `max_messages = 4` leave an even-length
history within the bound. -/
theorem C5_even_invariant_witness :
    (sessMessages (SessionMemoryManager.run 4 0 none
      [("Q1", "A1"), ("Q2", "A2")])).length % 2 = 0 :=
  (C5_even_invariant 4 0 (by decide) (by decide) [("Q1", "A1"), ("Q2", "A2")]).1

/-- C3: counterexample — the claim requires `add_exchange` to evict expired
sessions first, so that (with `session_ttl = 10`) a write at time 100 to a
session last accessed at time 0 starts a fresh two-message history.  But
`add_exchange` performs no sweep in either implementation: it appends to the
stale messages, leaving four messages instead of two. -/
theorem C3_counterexample :
    sessMessages (SessionMemoryManager.add_exchange 20 100 "Q2" "A2"
      (some { messages := exchangeMsgs "Q1" "A1", last_access := 0 })) ≠
      exchangeMsgs "Q2" "A2" := by
  decide

/-- C3 (amended): only `get_history` runs the expiry sweep — a read of a
session idle longer than `session_ttl` returns an empty history and evicts
it (both implementations), so a read never returns messages of a session
that is expired at read time; `add_exchange`, however, performs no sweep:
a write to an expired-idle session appends the new pair to the stale
messages (retaining them whenever the result fits in `max_messages`) and
refreshes `last_access`, instead of starting a fresh history. -/
theorem C3_expiry_read_only (ttl m now : Nat) (q a : String) (st : SessionState)
    (hexp : st.last_access + ttl < now)
    (hroom : st.messages.length + 2 ≤ m) :
    SessionMemoryManager.get_history ttl now (some st) = ([], none) ∧
    ChatSessionRepository.get_history ttl now (some st) = ([], none) ∧
    sessMessages (SessionMemoryManager.add_exchange m now q a (some st)) =
      st.messages ++ exchangeMsgs q a ∧
    sessMessages (ChatSessionRepository.add_exchange m now q a (some st)) =
      st.messages ++ exchangeMsgs q a := by
  have hlen : (st.messages ++ exchangeMsgs q a).length = st.messages.length + 2 := by
    simp [exchangeMsgs]
  refine ⟨?_, ?_, ?_, ?_⟩
  · rw [SessionMemoryManager.get_history_spec_mem, if_pos (by omega)]
  · rw [ChatSessionRepository.get_history_spec_db, if_pos (by omega)]
  · show SessionMemoryManager.trim m (st.messages ++ exchangeMsgs q a) = _
    unfold SessionMemoryManager.trim
    rw [if_neg (by omega)]
  · show ChatSessionRepository.trim m (st.messages ++ exchangeMsgs q a) = _
    unfold ChatSessionRepository.trim
    rw [if_neg (by omega)]

/-- C3: witness — the amended theorem at `session_ttl = 10`, a session last
accessed at time 0, read/written at time 100 with `max_messages = 20`. -/
theorem C3_expiry_read_only_witness :
    SessionMemoryManager.get_history 10 100
      (some { messages := exchangeMsgs "Q1" "A1", last_access := 0 }) =
      ([], none) ∧
    sessMessages (SessionMemoryManager.add_exchange 20 100 "Q2" "A2"
      (some { messages := exchangeMsgs "Q1" "A1", last_access := 0 })) =
      exchangeMsgs "Q1" "A1" ++ exchangeMsgs "Q2" "A2" := by
  have h := C3_expiry_read_only 10 20 100 "Q2" "A2"
    { messages := exchangeMsgs "Q1" "A1", last_access := 0 }
    (by decide) (by decide)
  exact ⟨h.1, h.2.2.1⟩

namespace RagChain

/-
src/app/rag/chain.py: retriever construction of `build_rag_chain`.  The value
built is represented by which branch was taken and by every fetch count that
the branch hands to an underlying search (BM25 `k`, vector `k`, fused-ranking
truncation, filtered or plain `k`).
-/

/-- The corpus used by `_build_hybrid_retriever`: all chunks, restricted to
`doc_ids` when that list is truthy. -/
def hybridCorpus (all_docs : List Chunk) (doc_ids : Option (List String)) :
    List Chunk :=
  if pyTruthyList doc_ids then
    all_docs.filter (fun d => docIdMem d.doc_id (doc_ids.getD []))
  else all_docs

/-- The base retriever built by step 1 of `build_rag_chain`. -/
inductive BaseRetriever
  | hybridEmpty
  | hybrid (bm25_k : Nat) (vector_k : Nat) (bm25_weight : Rat)
      (vector_weight : Rat) (truncate_k : Nat)
  | filtered (k : Nat)
  | plain (k : Nat)
deriving DecidableEq, Repr

/-- `_build_hybrid_retriever`: empty filtered corpus short-circuits to a
retriever returning `[]`; otherwise BM25 with `k = top_k`, a vector retriever
with the same `k` (filtered when `doc_ids` is truthy), ensemble weights
`(bm25_weight, 1 - bm25_weight)`, and truncation of the fused ranking to
`top_k`. -/
def build_hybrid_retriever (all_docs : List Chunk) (top_k : Nat)
    (bm25_weight : Rat) (doc_ids : Option (List String)) : BaseRetriever :=
  if (hybridCorpus all_docs doc_ids).isEmpty then .hybridEmpty
  else .hybrid top_k top_k bm25_weight (1 - bm25_weight) top_k

/-- The retriever returned by `build_rag_chain` steps 1-2: the base retriever,
optionally wrapped by the listwise re-ranker with its `top_n`. -/
inductive Retriever
  | base (b : BaseRetriever)
  | reranked (b : BaseRetriever) (top_n : Nat)
deriving DecidableEq, Repr

/-- `build_rag_chain` (retriever part): `fetch_k = top_k * 3` when re-ranking
is enabled, else `top_k`; hybrid / filtered / plain branch selection; rerank
wrapper when enabled. -/
def build_rag_chain (store_docs : List Chunk) (top_k : Nat)
    (doc_ids : Option (List String)) (rerank_enabled : Bool)
    (rerank_top_n : Nat) (hybrid_enabled : Bool) (bm25_weight : Rat) :
    Retriever :=
  let fetch_k := if rerank_enabled then top_k * 3 else top_k
  let retriever : BaseRetriever :=
    if hybrid_enabled then
      build_hybrid_retriever store_docs fetch_k bm25_weight doc_ids
    else if pyTruthyList doc_ids then .filtered fetch_k
    else .plain fetch_k
  if rerank_enabled then .reranked retriever rerank_top_n else .base retriever

/-- The base retriever inside a (possibly reranked) retriever. -/
def Retriever.baseOf : Retriever → BaseRetriever
  | .base b => b
  | .reranked b _ => b

/-- Every fetch count a base retriever hands to an underlying search. -/
def BaseRetriever.fetchKs : BaseRetriever → List Nat
  | .hybridEmpty => []
  | .hybrid bk vk _ _ tk => [bk, vk, tk]
  | .filtered k => [k]
  | .plain k => [k]

end RagChain

/-- C10: the effective fetch count is `top_k * 3` exactly when re-ranking is
enabled (`top_k` otherwise), and that same count is used uniformly in every
slot of whichever base-retriever branch is built — the BM25 `k`, the vector
`k` and the fusion truncation of the hybrid branch, the filtered-search `k`,
and the plain vector-search `k` (the hybrid branch with an empty filtered
corpus performs no fetch at all). -/
theorem C10_fetch_k_uniform (store_docs : List Chunk) (top_k : Nat)
    (doc_ids : Option (List String)) (rerank_enabled : Bool)
    (rerank_top_n : Nat) (hybrid_enabled : Bool) (bm25_weight : Rat) :
    ((RagChain.build_rag_chain store_docs top_k doc_ids rerank_enabled
        rerank_top_n hybrid_enabled bm25_weight).baseOf).fetchKs =
      (if hybrid_enabled then
        (if (RagChain.hybridCorpus store_docs doc_ids).isEmpty then ([] : List Nat)
         else List.replicate 3 (if rerank_enabled then top_k * 3 else top_k))
      else [if rerank_enabled then top_k * 3 else top_k]) := by
  cases rerank_enabled <;> cases hybrid_enabled <;>
    by_cases hce : (RagChain.hybridCorpus store_docs doc_ids).isEmpty <;>
      cases hpt : pyTruthyList doc_ids <;>
        simp [RagChain.build_rag_chain, RagChain.build_hybrid_retriever,
          RagChain.Retriever.baseOf, RagChain.BaseRetriever.fetchKs, hce, hpt,
          List.replicate]

namespace CollectionSuggester

/-
src/app/services/collection_suggester.py: `suggest_collections`, from the raw
chat-model output string to the list of collection labels.  `json.loads` is
external library code and is abstracted as a parse oracle: `none` models a
`JSONDecodeError`, a list result carries its elements rendered by `str(s)`,
and any non-list JSON value is `other`.  Text is a list of characters; the
markdown-fence, quote and apostrophe characters are written by code point to
keep the source free of delimiter-sensitive literals.  Python reassigns `raw`
to the fence-stripped form before parsing, so both the parse and the fallback
scan see `preprocess raw`.
-/

/-- The result of the `json.loads` oracle. -/
inductive PyJson
  | pyList (elems : List (List Char))
  | other

/-- The backtick character (code point 96). -/
def backtick : Char := Char.ofNat 96

/-- The markdown fence three-backtick pattern. -/
def fence : List Char := [backtick, backtick, backtick]

/-- The double-quote character (code point 34). -/
def quoteChar : Char := Char.ofNat 34

/-- The single-quote character (code point 39). -/
def squoteChar : Char := Char.ofNat 39

/-- Index of the first occurrence of `pat` inside `l`, if any. -/
def findSub (l pat : List Char) : Option Nat :=
  ((List.range (l.length + 1)).filter (fun i => pat.isPrefixOf (l.drop i))).head?

/-- Python `l.split(pat)[1]`: the segment between the first occurrence of
`pat` and the next one (or the end of the string). -/
def splitSecond (l pat : List Char) : List Char :=
  match findSub l pat with
  | none => l
  | some i =>
    let rest := l.drop (i + pat.length)
    match findSub rest pat with
    | none => rest
    | some j => rest.take j

/-- Python `str.strip()`: remove leading and trailing whitespace. -/
def pyStrip (l : List Char) : List Char :=
  ((l.dropWhile Char.isWhitespace).reverse.dropWhile Char.isWhitespace).reverse

/-- Substring occurrence, as a boolean (Python `in`). -/
def containsSub (l pat : List Char) : Bool :=
  decide (List.IsInfix pat l)

/-- The fence-stripping step of `suggest_collections`: when the output
contains a markdown fence, take the fenced segment, drop a leading `json`
tag, and strip whitespace. -/
def preprocess (raw : List Char) : List Char :=
  if containsSub raw fence then
    let r := splitSecond raw fence
    let r := if (String.toList "json").isPrefixOf r then r.drop 4 else r
    pyStrip r
  else raw

/-- Per-entry normalisation:
`str(s).strip().lower().replace(" ", "-")` then removal of double and single
quotes. -/
def cleanEntry (s : List Char) : List Char :=
  ((((pyStrip s).map Char.toLower).map
      (fun c => if c = ' ' then '-' else c)).filter
    (fun c => decide (c ≠ quoteChar))).filter
    (fun c => decide (c ≠ squoteChar))

/-- The cleaned, validated entries of a parsed JSON array: nonempty and at
most 50 characters. -/
def cleanedEntries (elems : List (List Char)) : List (List Char) :=
  (elems.map cleanEntry).filter (fun s => !s.isEmpty && decide (s.length ≤ 50))

/-- `PRIMARY_CATEGORIES = list(TAXONOMY.keys())`
(src/app/classification.py). -/
def PRIMARY_CATEGORIES : List (List Char) :=
  ["legal-compliance", "finance-accounting", "business-operations",
   "technical-engineering", "medical-healthcare", "government-administrative",
   "hr-personal", "marketing-media", "education-research",
   "research-scientific", "other"].map String.toList

/-- The fallback normalisation of the raw text: remove quotes, single quotes
and periods, hyphenate spaces, lowercase. -/
def fallbackClean (raw : List Char) : List Char :=
  ((((raw.filter (fun c => decide (c ≠ quoteChar))).filter
      (fun c => decide (c ≠ squoteChar))).filter
    (fun c => decide (c ≠ '.'))).map
    (fun c => if c = ' ' then '-' else c)).map Char.toLower

/-- The fallback scan: the first primary category occurring as a substring of
the cleaned raw text; else the safe default `["other"]`. -/
def fallback (raw : List Char) : List (List Char) :=
  match PRIMARY_CATEGORIES.find? (fun cat => containsSub (fallbackClean raw) cat) with
  | some cat => [cat]
  | none => [String.toList "other"]

/-- `suggest_collections` from the model's raw output onward: fence-strip,
parse; a parsed list yields its cleaned entries when any survive; every other
outcome (parse failure, non-list JSON, all entries cleaned away) resolves
through the fallback scan of the fence-stripped text. -/
def suggest_collections (parse : List Char → Option PyJson) (raw : List Char) :
    List (List Char) :=
  match parse (preprocess raw) with
  | some (.pyList elems) =>
    if !(cleanedEntries elems).isEmpty then cleanedEntries elems
    else fallback (preprocess raw)
  | _ => fallback (preprocess raw)

/-- Helper: the fallback never yields an empty list. -/
theorem fallback_ne_nil (raw : List Char) : fallback raw ≠ [] := by
  unfold fallback
  cases PRIMARY_CATEGORIES.find? (fun cat => containsSub (fallbackClean raw) cat) with
  | none => simp
  | some cat => simp

end CollectionSuggester

/-- C9: for every chat-model output string and every outcome of JSON parsing
(failure, non-list value, list), `suggest_collections` returns a value — all
failure paths are absorbed — and the returned list is never empty; when
parsing fails, the result is the fallback scan of the (fence-stripped) raw
text, which yields the first primary-category substring match `[cat]` or
exactly `["other"]`. -/
theorem C9_suggest_safe (parse : List Char → Option CollectionSuggester.PyJson)
    (raw : List Char) :
    CollectionSuggester.suggest_collections parse raw ≠ [] ∧
    (parse (CollectionSuggester.preprocess raw) = none →
      CollectionSuggester.suggest_collections parse raw =
        CollectionSuggester.fallback (CollectionSuggester.preprocess raw)) ∧
    ((∃ cat, cat ∈ CollectionSuggester.PRIMARY_CATEGORIES ∧
        CollectionSuggester.containsSub (CollectionSuggester.fallbackClean
          (CollectionSuggester.preprocess raw)) cat = true ∧
        CollectionSuggester.fallback (CollectionSuggester.preprocess raw) = [cat]) ∨
      CollectionSuggester.fallback (CollectionSuggester.preprocess raw) =
        [String.toList "other"]) := by
  refine ⟨?_, ?_, ?_⟩
  · unfold CollectionSuggester.suggest_collections
    cases hp : parse (CollectionSuggester.preprocess raw) with
    | none => exact CollectionSuggester.fallback_ne_nil _
    | some v =>
      cases v with
      | other => exact CollectionSuggester.fallback_ne_nil _
      | pyList elems =>
        by_cases hc : (CollectionSuggester.cleanedEntries elems).isEmpty
        · simp only [hc, Bool.not_true, Bool.false_eq_true, if_false]
          exact CollectionSuggester.fallback_ne_nil _
        · simp only [Bool.not_eq_true] at hc
          simp only [hc, Bool.not_false, if_true]
          intro hnil
          rw [hnil] at hc
          simp at hc
  · intro hp
    unfold CollectionSuggester.suggest_collections
    rw [hp]
  · unfold CollectionSuggester.fallback
    cases hf : CollectionSuggester.PRIMARY_CATEGORIES.find?
        (fun cat => CollectionSuggester.containsSub
          (CollectionSuggester.fallbackClean
            (CollectionSuggester.preprocess raw)) cat) with
    | none => exact Or.inr rfl
    | some cat =>
      refine Or.inl ⟨cat, List.mem_of_find?_eq_some hf, List.find?_some hf, rfl⟩

/-- C9: witness — a concrete always-failing parser on the raw output
`"nonsense"`, for which the result is nonempty. -/
theorem C9_suggest_safe_witness :
    CollectionSuggester.suggest_collections (fun _ => none)
      (String.toList "nonsense") ≠ [] :=
  (C9_suggest_safe (fun _ => none) (String.toList "nonsense")).1
